import Mathlib

/-!
Verification of the Maxwell's-Demon simulation repository.

The simulation code is embedded shallowly over the rationals: the Python
float constants of the source become exact `ℚ` values (`0.95 = 19/20`,
`0.01 = 1/100`, ...), positions and velocities are record fields, and
each per-frame mutation becomes a pure state transformer.  The primary
variant modelled is `Maxwell_Demon_POO_2D_energy.py` (the only variant
carrying the `processed` debounce flag and the energy/bit ledger); the
gate of `Max_DEMON.py` and the boundary handling of
`Maxwell_demon_animated.py` are embedded separately where claims cite
them.

`np.log(2)` (the `landauer_constant` attribute) is kept as an abstract
rational parameter of the simulation state: the code computes it once and
only ever multiplies the bit count by the stored constant, so every claim
about the ledger holds for whatever value the constant has.
-/

namespace MaxwellSim

/-- Kinematic state of one particle, from `Particle.__init__` of
`Maxwell_Demon_POO_2D_energy.py`: position `(x, y)`, velocity components,
the per-particle speed cutoff, and the `processed` debounce flag. -/
structure Particle where
  x : ℚ
  y : ℚ
  velocity_x : ℚ
  velocity_y : ℚ
  cut_velocity : ℚ
  processed : Bool
  deriving DecidableEq, Repr

/-- The barrier-zone test `0.95 < x < 1.05` used by `Particle.move` and
`MaxwellDemon.update` of `Maxwell_Demon_POO_2D_energy.py`. -/
def inZone (x : ℚ) : Prop :=
  19/20 < x ∧ x < 21/20

instance : DecidablePred inZone := fun x =>
  inferInstanceAs (Decidable (19/20 < x ∧ x < 21/20))

/-- X-axis wall reflection of `Particle.move`: below `0` the position is
clamped to `0` and the velocity negated, above `2` it is clamped to `2`
and the velocity negated. -/
def reflectX (x v : ℚ) : ℚ × ℚ :=
  if x < 0 then (0, -v)
  else if 2 < x then (2, -v)
  else (x, v)

/-- Y-axis wall reflection of `Particle.move`, clamping to `[-1, 1]`. -/
def reflectY (y v : ℚ) : ℚ × ℚ :=
  if y < -1 then (-1, -v)
  else if 1 < y then (1, -v)
  else (y, v)

/-- `Particle.move` of `Maxwell_Demon_POO_2D_energy.py`: advance by
`velocity * 0.01` per axis, reflect at the box walls, and reset
`processed` when the new position is outside the barrier zone. -/
def Particle.move (p : Particle) : Particle :=
  let xr := reflectX (p.x + p.velocity_x * (1/100)) p.velocity_x
  let yr := reflectY (p.y + p.velocity_y * (1/100)) p.velocity_y
  { x := xr.1, y := yr.1, velocity_x := xr.2, velocity_y := yr.2,
    cut_velocity := p.cut_velocity,
    processed := if inZone xr.1 then p.processed else false }

/-- `Particle.is_fast`: `np.abs(velocity_x) > cut_velocity` (only the x
component is consulted, also in the 2D variants). -/
def Particle.is_fast (p : Particle) : Bool :=
  decide (|p.velocity_x| > p.cut_velocity)

/-- The demon's decision table (the body of the barrier block of
`MaxwellDemon.update` in `Maxwell_Demon_POO_2D_energy.py`): a fast
particle moving right is bounced, a fast particle otherwise passes and
one `True` is appended to `memory_bits`; a slow particle moving right
passes with one appended bit, a slow particle otherwise is bounced.
Returns the updated particle and the bits appended. -/
def demonRule (q : Particle) : Particle × List Bool :=
  if q.is_fast then
    if 0 < q.velocity_x then
      ({ q with velocity_x := -q.velocity_x }, [])
    else
      (q, [true])
  else
    if 0 < q.velocity_x then
      (q, [true])
    else
      ({ q with velocity_x := -q.velocity_x }, [])

/-- The guarded gate of `MaxwellDemon.update`
(`if 0.95 < particle.x < 1.05 and not particle.processed`): when the
guard holds the particle is marked processed and judged by `demonRule`;
otherwise it is left untouched.  The middle component records whether the
decision rule fired this frame. -/
def demonGate (p : Particle) : Particle × Bool × List Bool :=
  if inZone p.x ∧ p.processed = false then
    let r := demonRule { p with processed := true }
    (r.1, true, r.2)
  else
    (p, false, [])

/-- One full per-particle frame of `MaxwellDemon.update`:
`particle.move()` followed by the gating block. -/
def particleStep (p : Particle) : Particle :=
  (demonGate p.move).1

/-- Iterate `particleStep` for `n` frames. -/
def particleIter (p : Particle) : ℕ → Particle
  | 0 => p
  | n + 1 => particleStep (particleIter p n)

/-- Whether the gate's decision rule fires on frame `i` (frames counted
from 0) when the simulation starts from particle state `p`. -/
def judgedAt (p : Particle) (i : ℕ) : Bool :=
  (demonGate (particleIter p i).move).2.1

/-- Simulation state of the `MaxwellDemon` class of
`Maxwell_Demon_POO_2D_energy.py`: the particle population, the demon's
`memory_bits`, the sparse `bit_history` / `energy_cost` sample lists, and
the stored `landauer_constant` (`np.log(2)`, kept abstract). -/
structure MaxwellDemon where
  particles : List Particle
  memory_bits : List Bool
  bit_history : List ℕ
  energy_cost : List ℚ
  landauer_constant : ℚ
  deriving DecidableEq, Repr

/-- The per-particle loop of `MaxwellDemon.update`: move and gate each
particle in order, collecting the updated particles and the booleans
appended to `memory_bits`. -/
def stepParticles : List Particle → List Particle × List Bool
  | [] => ([], [])
  | p :: ps =>
    let r := demonGate p.move
    let rest := stepParticles ps
    (r.1 :: rest.1, r.2.2 ++ rest.2)

/-- `MaxwellDemon.update` of `Maxwell_Demon_POO_2D_energy.py`: run the
per-particle loop, extend `memory_bits`, and — only when
`new_bits_added > 0` — append `len(memory_bits)` and
`len(memory_bits) * landauer_constant` to `bit_history` and
`energy_cost`. -/
def MaxwellDemon.update (s : MaxwellDemon) : MaxwellDemon :=
  let r := stepParticles s.particles
  let memory_bits := s.memory_bits ++ r.2
  if 0 < r.2.length then
    { particles := r.1, memory_bits := memory_bits,
      bit_history := s.bit_history ++ [memory_bits.length],
      energy_cost := s.energy_cost ++
        [(memory_bits.length : ℚ) * s.landauer_constant],
      landauer_constant := s.landauer_constant }
  else
    { particles := r.1, memory_bits := memory_bits,
      bit_history := s.bit_history, energy_cost := s.energy_cost,
      landauer_constant := s.landauer_constant }

/-- `MaxwellDemon.__init__`: the ledger starts empty; the particle list
is random in the source and is therefore a parameter here, as is the
value of `np.log(2)`. -/
def MaxwellDemon.init (ps : List Particle) (c : ℚ) : MaxwellDemon :=
  { particles := ps, memory_bits := [], bit_history := [],
    energy_cost := [], landauer_constant := c }

/-- Iterate `MaxwellDemon.update` for `n` frames. -/
def MaxwellDemon.run (s : MaxwellDemon) : ℕ → MaxwellDemon
  | 0 => s
  | n + 1 => (s.run n).update

/-- Boundary handling of `Maxwell_demon_animated.py` (lines 41-44):
`positions[i] += velocities[i]`, then an out-of-range position only
negates the velocity — the position is not clamped. -/
def animatedMove (x v : ℚ) : ℚ × ℚ :=
  let x1 := x + v
  if x1 < 0 ∨ 2 < x1 then (x1, -v) else (x1, v)

/-- The demon block of `Max_DEMON.py` (lines 57-68), applied to a
particle after wall reflection: inside `0.98 < x < 1.02`, a fast particle
on the left is shifted right by `0.04` and one bit is stored, a slow
particle on the right is shifted left by `0.04` and one bit is stored,
anything else is bounced. -/
def maxDemonGate (x v : ℚ) : ℚ × ℚ × List Bool :=
  if 49/50 < x ∧ x < 51/50 then
    if x < 1 ∧ 2 < |v| then (x + 4/100, v, [true])
    else if 1 < x ∧ |v| < 2 then (x - 4/100, v, [true])
    else (x, -v, [])
  else
    (x, v, [])

/-! ### Basic gate lemmas -/

theorem demonRule_x (q : Particle) : (demonRule q).1.x = q.x := by
  unfold demonRule; split_ifs <;> rfl

theorem demonRule_y (q : Particle) : (demonRule q).1.y = q.y := by
  unfold demonRule; split_ifs <;> rfl

theorem demonRule_vy (q : Particle) :
    (demonRule q).1.velocity_y = q.velocity_y := by
  unfold demonRule; split_ifs <;> rfl

theorem demonRule_cut (q : Particle) :
    (demonRule q).1.cut_velocity = q.cut_velocity := by
  unfold demonRule; split_ifs <;> rfl

theorem demonRule_proc (q : Particle) :
    (demonRule q).1.processed = q.processed := by
  unfold demonRule; split_ifs <;> rfl

theorem demonGate_x (p : Particle) : (demonGate p).1.x = p.x := by
  unfold demonGate; split_ifs
  · exact demonRule_x _
  · rfl

theorem demonGate_y (p : Particle) : (demonGate p).1.y = p.y := by
  unfold demonGate; split_ifs
  · exact demonRule_y _
  · rfl

theorem demonGate_vy (p : Particle) :
    (demonGate p).1.velocity_y = p.velocity_y := by
  unfold demonGate; split_ifs
  · exact demonRule_vy _
  · rfl

theorem demonGate_cut (p : Particle) :
    (demonGate p).1.cut_velocity = p.cut_velocity := by
  unfold demonGate; split_ifs
  · exact demonRule_cut _
  · rfl

/-- The decision rule fires exactly on unprocessed particles inside the
zone. -/
theorem demonGate_judged_iff (p : Particle) :
    (demonGate p).2.1 = true ↔ (inZone p.x ∧ p.processed = false) := by
  unfold demonGate; split_ifs with h <;> simp [h]

/-- A particle that the guard rejects passes through the gate untouched. -/
theorem demonGate_skip (p : Particle)
    (h : ¬(inZone p.x ∧ p.processed = false)) :
    demonGate p = (p, false, []) := by
  unfold demonGate; exact if_neg h

/-- After the gate, a particle inside the zone is always marked
processed. -/
theorem demonGate_processed (p : Particle) (h : inZone p.x) :
    (demonGate p).1.processed = true := by
  unfold demonGate
  by_cases hp : p.processed = false
  · rw [if_pos ⟨h, hp⟩]
    exact (demonRule_proc _).trans rfl
  · rw [if_neg (fun hc => hp hc.2)]
    simpa using hp

/-- The `processed` flag after `move` agrees with the flag before when
the new position is in the zone, and is cleared otherwise. -/
theorem move_processed (p : Particle) :
    p.move.processed = if inZone p.move.x then p.processed else false := rfl

/-- The full per-particle step leaves `processed` true exactly when the
particle ends the frame inside the barrier zone. -/
theorem particleStep_processed_iff (p : Particle) :
    (particleStep p).processed = true ↔ inZone (particleStep p).x := by
  unfold particleStep
  rw [demonGate_x]
  by_cases hz : inZone p.move.x
  · simp [demonGate_processed p.move hz, hz]
  · rw [demonGate_skip p.move (fun hc => hz hc.1), move_processed]
    simp [hz]

theorem reflectX_v (x v : ℚ) :
    (reflectX x v).2 = v ∨ (reflectX x v).2 = -v := by
  unfold reflectX; split_ifs <;> simp

theorem reflectY_v (y v : ℚ) :
    (reflectY y v).2 = v ∨ (reflectY y v).2 = -v := by
  unfold reflectY; split_ifs <;> simp

theorem move_vx (p : Particle) :
    p.move.velocity_x = p.velocity_x ∨ p.move.velocity_x = -p.velocity_x :=
  reflectX_v _ _

theorem move_vy (p : Particle) :
    p.move.velocity_y = p.velocity_y ∨ p.move.velocity_y = -p.velocity_y :=
  reflectY_v _ _

theorem demonGate_vx (p : Particle) :
    (demonGate p).1.velocity_x = p.velocity_x ∨
    (demonGate p).1.velocity_x = -p.velocity_x := by
  unfold demonGate demonRule; split_ifs <;> simp

theorem particleStep_vx (p : Particle) :
    (particleStep p).velocity_x = p.velocity_x ∨
    (particleStep p).velocity_x = -p.velocity_x := by
  unfold particleStep
  rcases demonGate_vx p.move with h | h <;> rcases move_vx p with h2 | h2 <;>
    simp [h, h2]

theorem particleStep_vy (p : Particle) :
    (particleStep p).velocity_y = p.velocity_y ∨
    (particleStep p).velocity_y = -p.velocity_y := by
  unfold particleStep
  rw [demonGate_vy]
  exact move_vy p

theorem particleStep_abs_vx (p : Particle) :
    |(particleStep p).velocity_x| = |p.velocity_x| := by
  rcases particleStep_vx p with h | h <;> simp [h, abs_neg]

theorem particleStep_cut (p : Particle) :
    (particleStep p).cut_velocity = p.cut_velocity :=
  (demonGate_cut p.move).trans rfl

theorem particleStep_fast (p : Particle) :
    (particleStep p).is_fast = p.is_fast := by
  unfold Particle.is_fast
  rw [particleStep_abs_vx, particleStep_cut]

/-! ### Claim C2: the gate's decision table -/

/-- C2: at the moment a particle is judged (unprocessed, inside the
zone): a fast particle moving in the positive-x ("toward") direction is
bounced (`velocity_x` negated) with no bit committed; a fast particle
moving the other way continues and exactly one bit is committed; a slow
particle moving in the positive-x direction continues and exactly one bit
is committed; a slow particle moving the other way is bounced with no bit
— exactly one direction of travel is permitted per classification. -/
theorem gate_decision_rule (p : Particle) (hz : inZone p.x)
    (hp : p.processed = false) :
    (p.is_fast = true → 0 < p.velocity_x →
      demonGate p =
        ({ p with processed := true, velocity_x := -p.velocity_x },
         true, [])) ∧
    (p.is_fast = true → p.velocity_x < 0 →
      demonGate p = ({ p with processed := true }, true, [true])) ∧
    (p.is_fast = false → 0 < p.velocity_x →
      demonGate p = ({ p with processed := true }, true, [true])) ∧
    (p.is_fast = false → p.velocity_x < 0 →
      demonGate p =
        ({ p with processed := true, velocity_x := -p.velocity_x },
         true, [])) := by
  have hq : ({ p with processed := true } : Particle).is_fast =
      p.is_fast := rfl
  refine ⟨?_, ?_, ?_, ?_⟩ <;> intro hf hv <;>
    unfold demonGate demonRule <;> rw [if_pos ⟨hz, hp⟩] <;>
    rw [show ({ p with processed := true } : Particle).is_fast = p.is_fast
        from rfl, hf]
  · simp [hv]
  · simp [hv.asymm]
  · simp [hv]
  · simp [hv.asymm]

/-- Witness for C2: a fast rightward particle at the barrier is bounced
and no bit is committed. -/
theorem gate_decision_rule_witness :
    demonGate ⟨1, 0, 3, 0, 2, false⟩ =
      (⟨1, 0, -3, 0, 2, true⟩, true, []) :=
  (gate_decision_rule ⟨1, 0, 3, 0, 2, false⟩
      (by with_unfolding_all decide) rfl).1
    (by with_unfolding_all decide) (by with_unfolding_all decide)

/-! ### Claim C5: boundary containment -/

/-- Counterexample for C5: in `Maxwell_demon_animated.py` the boundary
handling only negates the velocity without clamping, so a particle at
`x = 1.9` with velocity `0.6` ends the reflection at `x = 2.5`, outside
the box `[0, 2]`. -/
theorem animated_reflection_escapes_box :
    (animatedMove (19/10) (3/5)).1 = 5/2 ∧
    ¬ (animatedMove (19/10) (3/5)).1 ≤ 2 ∧
    (animatedMove (19/10) (3/5)).2 = -(3/5) := by
  with_unfolding_all decide

/-- C5 as amended: in the clamping variants (modelled from
`Maxwell_Demon_POO_2D_energy.py`), after `move` every particle position
lies inside `[0, 2] × [-1, 1]`; the animated variant's reflection does
not clamp and may leave the position outside the box. -/
theorem boundary_containment_clamped (p : Particle) :
    0 ≤ p.move.x ∧ p.move.x ≤ 2 ∧ -1 ≤ p.move.y ∧ p.move.y ≤ 1 := by
  have hx : ∀ x v : ℚ, 0 ≤ (reflectX x v).1 ∧ (reflectX x v).1 ≤ 2 := by
    intro x v
    unfold reflectX
    split_ifs with h1 h2
    · norm_num
    · norm_num
    · exact ⟨le_of_not_lt h1, le_of_not_lt h2⟩
  have hy : ∀ y v : ℚ, -1 ≤ (reflectY y v).1 ∧ (reflectY y v).1 ≤ 1 := by
    intro y v
    unfold reflectY
    split_ifs with h1 h2
    · norm_num
    · norm_num
    · exact ⟨le_of_not_lt h1, le_of_not_lt h2⟩
  exact ⟨(hx _ _).1, (hx _ _).2, (hy _ _).1, (hy _ _).2⟩

/-! ### Claim C6: zero-velocity particle in the zone -/

/-- Counterexample for C6: a zero-velocity particle inside the zone does
not keep `processed = false` — the gate marks it processed. -/
theorem zero_velocity_sets_processed :
    inZone (1 : ℚ) ∧
    (demonGate ⟨1, 0, 0, 0, 2, false⟩).1.processed = true := by
  with_unfolding_all decide

/-- C6 as amended: a zero-velocity unprocessed particle inside the zone
(with a nonnegative cutoff, as in every variant) commits no bit and its
kinematic state is unchanged (the slow-bounce branch negates a zero
velocity, a numeric no-op), but `processed` is set to true, so it is not
re-judged until it leaves the zone. -/
theorem zero_velocity_gate_noop (p : Particle) (hz : inZone p.x)
    (hp : p.processed = false) (hv : p.velocity_x = 0)
    (hc : 0 ≤ p.cut_velocity) :
    (demonGate p).1.x = p.x ∧ (demonGate p).1.y = p.y ∧
    (demonGate p).1.velocity_x = p.velocity_x ∧
    (demonGate p).1.velocity_y = p.velocity_y ∧
    (demonGate p).2.2 = [] ∧ (demonGate p).1.processed = true := by
  have hfast : ({ p with processed := true } : Particle).is_fast =
      false := by
    have : ¬ (|p.velocity_x| > p.cut_velocity) := by
      rw [hv, abs_zero]
      exact fun hlt => absurd hc (not_le.mpr hlt)
    simpa [Particle.is_fast] using this
  unfold demonGate demonRule
  rw [if_pos ⟨hz, hp⟩, hfast]
  simp [hv]

/-- Witness for C6's amended statement at a concrete stationary
particle. -/
theorem zero_velocity_gate_noop_witness :
    (demonGate ⟨1, 0, 0, 0, 2, false⟩).1.velocity_x = 0 ∧
    (demonGate ⟨1, 0, 0, 0, 2, false⟩).2.2 = [] ∧
    (demonGate ⟨1, 0, 0, 0, 2, false⟩).1.processed = true := by
  have h := zero_velocity_gate_noop ⟨1, 0, 0, 0, 2, false⟩
    (by with_unfolding_all decide) rfl rfl (by with_unfolding_all decide)
  exact ⟨h.2.2.1, h.2.2.2.2.1, h.2.2.2.2.2⟩

/-! ### Claim C7: the gate's kinematic footprint -/

/-- Counterexample for C7: the gate of `Max_DEMON.py` does modify a
particle's position — a fast left-chamber particle at `x = 0.99` is
teleported to `x = 1.03` as it is let through. -/
theorem max_demon_gate_moves_position :
    (maxDemonGate (99/100) 4).1 = 103/100 ∧
    (maxDemonGate (99/100) 4).1 ≠ 99/100 ∧
    (maxDemonGate (99/100) 4).2.2 = [true] := by
  with_unfolding_all decide

/-- C7 as amended: in `Maxwell_Demon_POO_2D_energy.py` a judged
particle's position and y-velocity are untouched and the gate either
negates `velocity_x` committing no bit, or leaves the velocity unchanged
committing exactly one bit; in `Max_DEMON.py` the gate instead shifts an
admitted particle's position by `±0.04` (committing one bit) and bounces
everything else in the zone. -/
theorem gate_kinematic_effect :
    (∀ p : Particle, inZone p.x → p.processed = false →
      (demonGate p).1.x = p.x ∧ (demonGate p).1.y = p.y ∧
      (demonGate p).1.velocity_y = p.velocity_y ∧
      (((demonGate p).1.velocity_x = -p.velocity_x ∧
        (demonGate p).2.2 = []) ∨
       ((demonGate p).1.velocity_x = p.velocity_x ∧
        (demonGate p).2.2 = [true]))) ∧
    (∀ x v : ℚ, 49/50 < x → x < 51/50 →
      ((maxDemonGate x v).2.2 = [true] ∧ (maxDemonGate x v).2.1 = v ∧
        ((maxDemonGate x v).1 = x + 4/100 ∨
         (maxDemonGate x v).1 = x - 4/100)) ∨
      ((maxDemonGate x v).2.2 = [] ∧ (maxDemonGate x v).2.1 = -v ∧
        (maxDemonGate x v).1 = x)) := by
  constructor
  · intro p hz hp
    refine ⟨demonGate_x p, demonGate_y p, demonGate_vy p, ?_⟩
    unfold demonGate demonRule
    rw [if_pos ⟨hz, hp⟩]
    split_ifs <;> simp
  · intro x v hx1 hx2
    unfold maxDemonGate
    rw [if_pos ⟨hx1, hx2⟩]
    split_ifs <;> simp

/-- Witness for C7's amended statement: a fast rightward particle is
bounced with no bit, position untouched. -/
theorem gate_kinematic_effect_witness :
    (demonGate ⟨1, 0, 3, 0, 2, false⟩).1.x = 1 ∧
    (((demonGate ⟨1, 0, 3, 0, 2, false⟩).1.velocity_x = -(3 : ℚ) ∧
      (demonGate ⟨1, 0, 3, 0, 2, false⟩).2.2 = []) ∨
     ((demonGate ⟨1, 0, 3, 0, 2, false⟩).1.velocity_x = 3 ∧
      (demonGate ⟨1, 0, 3, 0, 2, false⟩).2.2 = [true])) := by
  have h := gate_kinematic_effect.1 ⟨1, 0, 3, 0, 2, false⟩
    (by with_unfolding_all decide) rfl
  exact ⟨h.1, h.2.2.2⟩

/-! ### Claim C8: the extent of the barrier zone -/

/-- Counterexample for C8: a particle exactly at `x = 1 - ε = 0.95` is
not judged by the gate — the zone test `0.95 < x < 1.05` is strict, so
the endpoints are outside the zone. -/
theorem zone_boundary_not_evaluated :
    (19/20 : ℚ) = 1 - 1/20 ∧
    demonGate ⟨19/20, 0, 3, 0, 2, false⟩ =
      (⟨19/20, 0, 3, 0, 2, false⟩, false, []) ∧
    ¬ inZone (19/20) := by
  with_unfolding_all decide

/-- C8 as amended: the gate considers a particle inside the barrier zone
exactly when its x-position lies in the OPEN interval `(1-ε, 1+ε)`
(`ε = 0.05`); a particle exactly at `x = 1-ε` or `x = 1+ε` is outside
the zone and passes the gate untouched. -/
theorem gate_zone_open_interval (p : Particle) (hp : p.processed = false) :
    ((demonGate p).2.1 = true ↔ (1 - 1/20 < p.x ∧ p.x < 1 + 1/20)) ∧
    ((p.x = 1 - 1/20 ∨ p.x = 1 + 1/20) → demonGate p = (p, false, [])) := by
  have hlo : (19/20 : ℚ) = 1 - 1/20 := by norm_num
  have hhi : (21/20 : ℚ) = 1 + 1/20 := by norm_num
  constructor
  · rw [demonGate_judged_iff]
    unfold inZone
    rw [hlo, hhi]
    simp [hp]
  · intro h
    apply demonGate_skip
    rintro ⟨⟨hz1, hz2⟩, -⟩
    rcases h with h | h <;> rw [h] at hz1 hz2
    · rw [hlo] at hz1; exact lt_irrefl _ hz1
    · rw [hhi] at hz2; exact lt_irrefl _ hz2

/-- Witness for C8's amended statement: a particle strictly inside the
open interval is judged. -/
theorem gate_zone_open_interval_witness :
    (demonGate ⟨1, 0, 1, 0, 2, false⟩).2.1 = true :=
  (gate_zone_open_interval ⟨1, 0, 1, 0, 2, false⟩ rfl).1.mpr
    (by with_unfolding_all decide)

/-! ### Claim C1: debounce -/

/-- Counting helper: a boolean predicate over `List.range N` that holds
exactly at index `0` is counted once. -/
theorem countP_range_firstOnly (f : ℕ → Bool) :
    ∀ N, 1 ≤ N → (∀ i, i < N → f i = decide (i = 0)) →
      (List.range N).countP f = 1 := by
  intro N
  induction N with
  | zero => intro h; exact absurd h (by decide)
  | succ k ih =>
    intro _ hf
    rw [List.range_succ, List.countP_append]
    rcases Nat.eq_zero_or_pos k with h0 | hk
    · subst h0
      have : f 0 = true := by rw [hf 0 (by decide)]; rfl
      simp [this]
    · rw [ih hk (fun i hi => hf i (Nat.lt_succ_of_lt hi))]
      have : f k = false := by
        rw [hf k (Nat.lt_succ_self k)]
        simp [Nat.pos_iff_ne_zero.mp hk]
      simp [this]

/-- C1: a particle that starts a visit unprocessed and stays inside the
barrier zone for `N ≥ 1` consecutive frames is judged by the gate's
decision rule exactly once across those frames; while inside the zone the
`processed` flag stays true, and after any frame the flag is false only
if the particle ended the frame outside the zone. -/
theorem gate_debounce_once (p : Particle) (N : ℕ) (hN : 1 ≤ N)
    (h0 : p.processed = false)
    (hin : ∀ i, i < N → inZone ((particleIter p i).move).x) :
    (List.range N).countP (fun i => judgedAt p i) = 1 ∧
    (∀ i, i < N → (particleIter p (i + 1)).processed = true) ∧
    (∀ q : Particle, (particleStep q).processed = false →
      ¬ inZone (particleStep q).x) := by
  have hproc : ∀ i, i < N → (particleIter p (i + 1)).processed = true := by
    intro i hi
    show (particleStep (particleIter p i)).processed = true
    unfold particleStep
    exact demonGate_processed _ (hin i hi)
  have hjud : ∀ i, i < N → judgedAt p i = decide (i = 0) := by
    intro i hi
    unfold judgedAt
    cases i with
    | zero =>
      have hm : (particleIter p 0).move.processed = false := by
        rw [move_processed, if_pos (hin 0 hi)]
        exact h0
      rw [show (decide ((0 : ℕ) = 0)) = true from rfl]
      exact (demonGate_judged_iff _).mpr ⟨hin 0 hi, hm⟩
    | succ j =>
      have hj : j < N := Nat.lt_of_succ_lt hi
      have hm : (particleIter p (j + 1)).move.processed = true := by
        rw [move_processed, if_pos (hin (j + 1) hi)]
        exact hproc j hj
      have hng : ¬ (inZone ((particleIter p (j + 1)).move).x ∧
          ((particleIter p (j + 1)).move).processed = false) := by
        rintro ⟨-, hf⟩
        rw [hm] at hf
        exact Bool.noConfusion hf
      rw [demonGate_skip _ hng]
      simp
  refine ⟨countP_range_firstOnly _ N hN hjud, hproc, ?_⟩
  intro q hq hz
  have h := (particleStep_processed_iff q).mpr hz
  rw [hq] at h
  exact Bool.noConfusion h

/-- Witness for C1: a slow rightward particle entering the zone and
staying inside for two frames is judged exactly once. -/
theorem gate_debounce_once_witness :
    (List.range 2).countP
      (fun i => judgedAt ⟨19/20, 0, 1, 0, 2, false⟩ i) = 1 :=
  (gate_debounce_once ⟨19/20, 0, 1, 0, 2, false⟩ 2 (by decide) rfl
    (by with_unfolding_all decide)).1

/-! ### Claims C3, C4, C9: the entropy ledger -/

/-- The ledger invariant of `Maxwell_Demon_POO_2D_energy.py`: the
`energy_cost` samples are exactly the `bit_history` samples multiplied by
the stored Landauer constant. -/
def ledgerOK (s : MaxwellDemon) : Prop :=
  s.energy_cost =
    s.bit_history.map (fun b : ℕ => (b : ℚ) * s.landauer_constant)

theorem update_landauer (s : MaxwellDemon) :
    s.update.landauer_constant = s.landauer_constant := by
  simp only [MaxwellDemon.update]
  split_ifs <;> rfl

theorem update_memory_bits (s : MaxwellDemon) :
    s.update.memory_bits = s.memory_bits ++ (stepParticles s.particles).2 := by
  simp only [MaxwellDemon.update]
  split_ifs <;> rfl

theorem update_ledgerOK (s : MaxwellDemon) (h : ledgerOK s) :
    ledgerOK s.update := by
  unfold ledgerOK at h ⊢
  simp only [MaxwellDemon.update]
  split_ifs with hpos
  · simp [h]
  · exact h

theorem run_landauer (ps : List Particle) (c : ℚ) (n : ℕ) :
    ((MaxwellDemon.init ps c).run n).landauer_constant = c := by
  induction n with
  | zero => rfl
  | succ k ih =>
    show ((MaxwellDemon.init ps c).run k).update.landauer_constant = c
    rw [update_landauer]
    exact ih

theorem run_ledgerOK (ps : List Particle) (c : ℚ) (n : ℕ) :
    ledgerOK ((MaxwellDemon.init ps c).run n) := by
  induction n with
  | zero => rfl
  | succ k ih => exact update_ledgerOK _ ih

/-- Pairing a list with its image under `f` only produces pairs related
by `f`. -/
theorem zip_map_mem {α β : Type} (f : α → β) :
    ∀ (l : List α) (pr : α × β), pr ∈ l.zip (l.map f) → pr.2 = f pr.1 := by
  intro l
  induction l with
  | nil => intro pr h; cases h
  | cons a as ih =>
    intro pr h
    rw [List.map_cons, List.zip_cons_cons] at h
    rcases List.mem_cons.mp h with h1 | h1
    · subst h1; rfl
    · exact ih pr h1

/-- C3: in every state reachable from initialization, every
`(bitCount, cumulativeEnergy)` sample of the ledger history satisfies
`cumulativeEnergy = bitCount * landauer_constant` exactly (the constant
`np.log(2)` is held abstract as `c`). -/
theorem ledger_energy_consistency (ps : List Particle) (c : ℚ) (n : ℕ)
    (pr : ℕ × ℚ)
    (hmem : pr ∈ ((MaxwellDemon.init ps c).run n).bit_history.zip
      ((MaxwellDemon.init ps c).run n).energy_cost) :
    pr.2 = (pr.1 : ℚ) * c := by
  have hc := run_landauer ps c n
  have hok := run_ledgerOK ps c n
  unfold ledgerOK at hok
  rw [hok, hc] at hmem
  exact zip_map_mem _ _ pr hmem

/-- Witness for C3: a one-particle run that commits one bit records the
sample `(1, 1 * c)` at `c = 7`. -/
theorem ledger_energy_consistency_witness :
    ((1, 7) : ℕ × ℚ) ∈
      ((MaxwellDemon.init [⟨19/20, 0, 1, 0, 2, false⟩] 7).run 1).bit_history.zip
      ((MaxwellDemon.init [⟨19/20, 0, 1, 0, 2, false⟩] 7).run 1).energy_cost ∧
    (((1, 7) : ℕ × ℚ)).2 = ((((1, 7) : ℕ × ℚ)).1 : ℚ) * 7 :=
  ⟨by with_unfolding_all decide,
   ledger_energy_consistency [⟨19/20, 0, 1, 0, 2, false⟩] 7 1 (1, 7)
     (by with_unfolding_all decide)⟩

/-- The booleans collected by the per-particle loop are exactly the
per-particle gate bits, in order. -/
theorem stepParticles_bits_len (l : List Particle) :
    (stepParticles l).2.length =
      (l.map (fun p => (demonGate p.move).2.2.length)).sum := by
  induction l with
  | nil => rfl
  | cons p ps ih => simp [stepParticles, ih]

/-- C4: across one `update` the bit count never decreases, and it grows
by exactly the total number of bits the gate committed for the particles
of that frame (one per allowed crossing). -/
theorem bit_count_monotone (s : MaxwellDemon) :
    s.memory_bits.length ≤ s.update.memory_bits.length ∧
    s.update.memory_bits.length = s.memory_bits.length +
      (s.particles.map (fun p => (demonGate p.move).2.2.length)).sum := by
  constructor
  · rw [update_memory_bits]; simp
  · rw [update_memory_bits, List.length_append, stepParticles_bits_len]

/-- C9: a `(bitCount, cumulativeEnergy)` sample is appended to the
history lists exactly when the bit count changed during the frame; a
frame with no committed bits appends nothing. -/
theorem history_sampled_iff_bits (s : MaxwellDemon) :
    ((s.update.memory_bits.length ≠ s.memory_bits.length) ↔
      0 < (stepParticles s.particles).2.length) ∧
    (0 < (stepParticles s.particles).2.length →
      s.update.bit_history = s.bit_history ++
        [s.memory_bits.length + (stepParticles s.particles).2.length] ∧
      s.update.energy_cost = s.energy_cost ++
        [((s.memory_bits.length +
            (stepParticles s.particles).2.length : ℕ) : ℚ) *
          s.landauer_constant]) ∧
    ((stepParticles s.particles).2.length = 0 →
      s.update.bit_history = s.bit_history ∧
      s.update.energy_cost = s.energy_cost) := by
  refine ⟨?_, ?_, ?_⟩
  · rw [update_memory_bits, List.length_append]
    omega
  · intro hpos
    simp only [MaxwellDemon.update]
    rw [if_pos hpos]
    constructor <;> simp [List.length_append]
  · intro h0
    simp only [MaxwellDemon.update]
    rw [if_neg (by omega)]
    exact ⟨rfl, rfl⟩

/-- Witness for C9: the one-bit frame of the concrete run appends one
history sample. -/
theorem history_sampled_iff_bits_witness :
    (MaxwellDemon.init [⟨19/20, 0, 1, 0, 2, false⟩] 7).update.bit_history =
      (MaxwellDemon.init [⟨19/20, 0, 1, 0, 2, false⟩] 7).bit_history ++
      [(MaxwellDemon.init [⟨19/20, 0, 1, 0, 2, false⟩] 7).memory_bits.length +
        (stepParticles
          (MaxwellDemon.init [⟨19/20, 0, 1, 0, 2, false⟩] 7).particles).2.length] :=
  ((history_sampled_iff_bits
      (MaxwellDemon.init [⟨19/20, 0, 1, 0, 2, false⟩] 7)).2.1
    (by with_unfolding_all decide)).1

/-! ### Claim C10: speed conservation -/

/-- C10: every velocity change of the simulation is a sign negation of a
single component — across any frame each velocity component is preserved
or negated, so `|velocity_x|`, the cutoff, and the Fast/Slow
classification are invariant over the particle's whole lifetime. -/
theorem speed_class_invariant (p : Particle) (n : ℕ) :
    ((particleIter p (n + 1)).velocity_x = (particleIter p n).velocity_x ∨
     (particleIter p (n + 1)).velocity_x = -(particleIter p n).velocity_x) ∧
    ((particleIter p (n + 1)).velocity_y = (particleIter p n).velocity_y ∨
     (particleIter p (n + 1)).velocity_y = -(particleIter p n).velocity_y) ∧
    |(particleIter p n).velocity_x| = |p.velocity_x| ∧
    (particleIter p n).cut_velocity = p.cut_velocity ∧
    (particleIter p n).is_fast = p.is_fast := by
  refine ⟨particleStep_vx _, particleStep_vy _, ?_, ?_, ?_⟩
  · induction n with
    | zero => rfl
    | succ k ih =>
      rw [show particleIter p (k + 1) = particleStep (particleIter p k)
          from rfl, particleStep_abs_vx]
      exact ih
  · induction n with
    | zero => rfl
    | succ k ih =>
      rw [show particleIter p (k + 1) = particleStep (particleIter p k)
          from rfl, particleStep_cut]
      exact ih
  · induction n with
    | zero => rfl
    | succ k ih =>
      rw [show particleIter p (k + 1) = particleStep (particleIter p k)
          from rfl, particleStep_fast]
      exact ih

end MaxwellSim
